import Mathlib

/-!
Verification development for the talvaar-image-optimizer decision core
(`resizer_module/utils.py`, `resizer_module/analysis.py`,
`resizer_module/optimizer.py`).

Modelling conventions:
* Python strings are `List Char` when we reason about their characters
  (paths) and Lean `String` when they are opaque labels (modes, formats).
* A decoded image is abstracted into the data the core actually reads:
  the alpha channel of its RGBA conversion (an image whose mode has no
  alpha channel converts to an all-255 alpha channel) and an abstract list
  of pixel colour codes of the original image (used by `getcolors`).
* The external imaging library's encoder (`Image.save`, `convert`,
  `quantize`) can fail; `save_candidate_buffer` catches every failure and
  returns `None, None`, so in the race it is abstracted as a function
  returning `Option (buffer × size)`.
* Sizes are `Nat`; the final size returned by `smart_optimize` is `ENat`
  because the Python code uses `float('inf')` when the fallback encode
  fails.
-/

/-- The image data the analysis core reads: source mode string, the alpha
channel of the RGBA-converted image (one entry per pixel, byte values),
and the abstract colour codes of the original pixels. -/
structure Img where
  mode : String
  alphas : List Nat
  colors : List Nat

/-- `ImageAnalysis` from `analysis.py` lines 9-15: `alpha_type` is one of
the strings "none", "binary", "partial" exactly as in the Python code. -/
structure ImageAnalysis where
  mode : String
  alpha_type : String
  is_ui : Bool
  has_transparency : Bool
  suggested_algorithm : String
  deriving DecidableEq

/-- ASCII lower-casing of one character, as Python `str.lower` acts on
ASCII path strings. -/
def pyLower (c : Char) : Char :=
  if 'A' ≤ c ∧ c ≤ 'Z' then Char.ofNat (c.toNat + 32) else c

/-- Python `str.replace("\\", "/")` on one character. -/
def pyReplaceBS (c : Char) : Char :=
  if c = '\\' then '/' else c

/-- ASCII upper-casing of one character, as Python `str.upper` acts on
ASCII format names. -/
def pyUpperChar (c : Char) : Char :=
  if 'a' ≤ c ∧ c ≤ 'z' then Char.ofNat (c.toNat - 32) else c

/-- Python `str.upper()` on a format-name string. -/
def pyUpper (s : String) : String :=
  String.mk (s.data.map pyUpperChar)

/-- Python `str.split(sep)` generalised to a separator predicate: splits a
character list at every separator, keeping empty segments. -/
def splitP (p : Char → Bool) : List Char → List (List Char)
  | [] => [[]]
  | c :: cs =>
    if p c then [] :: splitP p cs
    else
      match splitP p cs with
      | [] => [[c]]
      | s :: ss => (c :: s) :: ss

/-- The fixed keyword set of `is_ui_texture` (`utils.py` line 20). -/
def keywords : List (List Char) :=
  ["ui".toList, "gui".toList, "colormap".toList, "font".toList]

/-- `is_ui_texture` (`utils.py` lines 15-21): lower-case the path, replace
every backslash by a slash, split on slashes, and test whether any whole
segment is a keyword. -/
def is_ui_texture (path : List Char) : Bool :=
  let p := (path.map pyLower).map pyReplaceBS
  let parts := splitP (fun c => c == '/') p
  parts.any (fun seg => keywords.contains seg)

/-- The spec's description of UI detection: split the lower-cased path
into segments on both separators directly, then test segment membership. -/
def specSegments (path : List Char) : List (List Char) :=
  splitP (fun c => c == '/' || c == '\\') (path.map pyLower)

/-- Minimum of the alpha channel as `alpha.getextrema()` reports it
(`analysis.py` lines 32-35); on byte-valued channels this is the least
element, with 255 for an empty channel. -/
def minAlpha (l : List Nat) : Nat :=
  l.foldr min 255

/-- `band.getcolors(maxcolors)`: the list of distinct values present, or
`none` when more than `maxcolors` distinct values occur. -/
def getcolors_cap (l : List Nat) (maxcolors : Nat) : Option (List Nat) :=
  if l.dedup.length ≤ maxcolors then some l.dedup else none

/-- The alpha classification of `analyze_image` (`analysis.py` lines
37-52): returns the `(alpha_type, has_transparency)` pair. The Python
test `if vals and len(vals) <= 2` is false for a `None` or empty
`getcolors` result. -/
def classify_alpha (alphas : List Nat) : String × Bool :=
  if minAlpha alphas < 255 then
    match getcolors_cap alphas 257 with
    | some vals =>
      if vals.length ≠ 0 ∧ vals.length ≤ 2 then
        if vals.all (fun v => v == 0 || v == 255) then ("binary", true)
        else ("partial", true)
      else ("partial", true)
    | none => ("partial", true)
  else ("none", false)

/-- The resize-kernel suggestion of `analyze_image` (`analysis.py` lines
56-65); `img.getcolors(257)` is modelled on the abstract colour codes. -/
def suggest_algorithm (img : Img) (is_ui : Bool) (alpha_type : String) : String :=
  if is_ui then "NEAREST"
  else if alpha_type = "binary" then "NEAREST"
  else
    match getcolors_cap img.colors 257 with
    | some cs => if cs.length ≠ 0 ∧ cs.length ≤ 256 then "NEAREST" else "LANCZOS"
    | none => "LANCZOS"

/-- `analyze_image` (`analysis.py` lines 17-75). -/
def analyze_image (img : Img) (file_path : List Char) : ImageAnalysis :=
  let is_ui := is_ui_texture file_path
  let ct := classify_alpha img.alphas
  ImageAnalysis.mk img.mode ct.1 is_ui ct.2 (suggest_algorithm img is_ui ct.1)

/-- `generate_candidates` (`optimizer.py` lines 9-35). -/
def generate_candidates (analysis : ImageAnalysis) (ignore_transparency : Bool) :
    List (String × Option Nat) :=
  let effective_alpha := if ignore_transparency then "none" else analysis.alpha_type
  if effective_alpha = "none" then
    ("RGB", none) ::
      (if analysis.is_ui then [] else [("P", some 256), ("P", some 128)])
  else if effective_alpha = "binary" then
    ("RGBA", none) ::
      (if analysis.is_ui then [] else [("P", some 256), ("P", some 128)])
  else if effective_alpha = "partial" then
    [("RGBA", none)]
  else []

/-- The save kwargs dictionary built by `save_candidate_buffer`
(`optimizer.py` lines 43-53). -/
structure SaveKwargs where
  format : String
  optimize : Bool
  compress_level : Option Nat
  quality : Option Int
  deriving DecidableEq

/-- Container-specific kwargs setup of `save_candidate_buffer`
(`optimizer.py` lines 46-53). -/
def save_candidate_kwargs (fmt : String) (compression : Nat) : SaveKwargs :=
  if pyUpper fmt = "PNG" then
    ⟨"PNG", true, some compression, none⟩
  else if pyUpper fmt = "JPG" ∨ pyUpper fmt = "JPEG" then
    ⟨"JPEG", true, none,
      some (if compression = 0 then 85 else max 10 (100 - (compression : Int) * 10))⟩
  else if pyUpper fmt = "WEBP" then
    ⟨"WEBP", false, none,
      some (if compression = 0 then 85 else max 10 (100 - (compression : Int) * 10))⟩
  else
    ⟨fmt, false, none, none⟩

/-- The pixel mode of the converted image `out` in `save_candidate_buffer`
(`optimizer.py` lines 56-67): `RGB` and `RGBA` convert directly, `P`
quantizes to a palette image, any other requested mode returns the
failure signal. -/
def save_candidate_mode (requested : String) : Option String :=
  if requested = "RGB" then some "RGB"
  else if requested = "RGBA" then some "RGBA"
  else if requested = "P" then some "P"
  else none

/-- The JPEG alpha drop of `save_candidate_buffer` (`optimizer.py` lines
69-71): an RGBA image is flattened to RGB when the container is
JPEG-class. -/
def save_candidate_final_mode (fmt : String) (m : String) : String :=
  if (pyUpper fmt = "JPG" ∨ pyUpper fmt = "JPEG") ∧ m = "RGBA" then "RGB" else m

/-- The champion label of `smart_optimize` (`optimizer.py` line 107):
`f"{mode}-{colors}" if colors else mode` — Python truthiness makes both
`None` and `0` fall back to the bare mode. -/
def mkLabel (mode : String) (colors : Option Nat) : String :=
  match colors with
  | some c => if c = 0 then mode else mode ++ "-" ++ Nat.repr c
  | none => mode

/-- One iteration of the race loop in `smart_optimize` (`optimizer.py`
lines 99-110): the state is `(best_buffer, best_size, best_mode)`, and a
successfully encoded candidate replaces the champion exactly when its
size is strictly smaller. -/
def race_step (enc1 : String → Option Nat → Option (Nat × Nat))
    (st : Option Nat × Nat × String) (cand : String × Option Nat) :
    Option Nat × Nat × String :=
  match enc1 cand.1 cand.2 with
  | some bs => if bs.2 < st.2.1 then (some bs.1, bs.2, mkLabel cand.1 cand.2) else st
  | none => st

/-- The full race loop of `smart_optimize` starting from
`(None, original_size, "Original")` (`optimizer.py` lines 94-110). -/
def race (enc1 : String → Option Nat → Option (Nat × Nat))
    (candidates : List (String × Option Nat)) (original_size : Nat) :
    Option Nat × Nat × String :=
  candidates.foldl (race_step enc1) (none, original_size, "Original")

/-- The mandatory-safe fallback mode of `smart_optimize` (`optimizer.py`
line 113). -/
def safe_mode (analysis : ImageAnalysis) (ignore_transparency : Bool) : String :=
  if ignore_transparency || analysis.alpha_type = "none" then "RGB" else "RGBA"

/-- The tail of `smart_optimize` (`optimizer.py` lines 112-119): keep the
champion if one exists, otherwise encode the safe mode unconditionally;
a failed fallback encode leaves the buffer empty with infinite size. -/
def smart_finish (enc1 : String → Option Nat → Option (Nat × Nat))
    (st : Option Nat × Nat × String) (sm : String) :
    Option Nat × String × ENat :=
  match st.1 with
  | some b => (some b, st.2.2, (st.2.1 : ENat))
  | none =>
    match enc1 sm none with
    | some bs => (some bs.1, sm ++ " (Fallback)", (bs.2 : ENat))
    | none => (none, sm ++ " (Fallback)", (⊤ : ENat))

/-- `smart_optimize` (`optimizer.py` lines 82-119). `enc` abstracts
`save_candidate_buffer` applied to the image with the given compression
level and container format: it returns the encoded buffer (an abstract
identifier) and its byte size, or the failure signal. -/
def smart_optimize (enc : Img → String → Option Nat → Nat → String → Option (Nat × Nat))
    (img : Img) (file_path : List Char) (original_size : Nat)
    (compression : Nat) (fmt : String) (ignore_transparency : Bool) :
    Option Nat × String × ENat :=
  smart_finish (fun m c => enc img m c compression fmt)
    (race (fun m c => enc img m c compression fmt)
      (generate_candidates (analyze_image img file_path) ignore_transparency)
      original_size)
    (safe_mode (analyze_image img file_path) ignore_transparency)

/-! ## Generator properties -/

/-- Claim C2: with the ignore-transparency flag off, `generate_candidates`
returns exactly the rule table of the spec: opaque non-UI gives RGB plus
the two palette candidates, opaque UI gives RGB alone, binary non-UI gives
RGBA plus the two palette candidates, binary UI gives RGBA alone, and
partial alpha gives RGBA alone regardless of the UI flag — in that order. -/
theorem generate_candidates_rule_table (m alg : String) (ht : Bool) :
    (∀ ui : Bool,
      generate_candidates (⟨m, "none", ui, ht, alg⟩ : ImageAnalysis) false =
        if ui then [("RGB", none)]
        else [("RGB", none), ("P", some 256), ("P", some 128)]) ∧
    (∀ ui : Bool,
      generate_candidates (⟨m, "binary", ui, ht, alg⟩ : ImageAnalysis) false =
        if ui then [("RGBA", none)]
        else [("RGBA", none), ("P", some 256), ("P", some 128)]) ∧
    (∀ ui : Bool,
      generate_candidates (⟨m, "partial", ui, ht, alg⟩ : ImageAnalysis) false =
        [("RGBA", none)]) := by
  refine ⟨fun ui => ?_, fun ui => ?_, fun ui => ?_⟩ <;> cases ui <;> rfl

/-- Claim C5: setting the ignore-transparency flag makes the generator
behave exactly as if the classification's alpha fidelity were "none",
whatever its actual value is. -/
theorem generate_candidates_ignore_flag (a : ImageAnalysis) :
    generate_candidates a true =
      generate_candidates
        (⟨a.mode, "none", a.is_ui, a.has_transparency, a.suggested_algorithm⟩ :
          ImageAnalysis) false := by
  rfl

/-- Claim C9: for the three valid alpha-fidelity values and either flag
value, the candidate list is non-empty with between 1 and 3 entries, and
its first entry is always a direct format — RGB or RGBA with no palette
size — so a lossless-fidelity format is always raced before any
palette-quantized one. -/
theorem generate_candidates_first_direct (a : ImageAnalysis) (ign : Bool)
    (h : a.alpha_type = "none" ∨ a.alpha_type = "binary" ∨ a.alpha_type = "partial") :
    1 ≤ (generate_candidates a ign).length ∧
    (generate_candidates a ign).length ≤ 3 ∧
    ((generate_candidates a ign).head? = some (("RGB", none)) ∨
      (generate_candidates a ign).head? = some (("RGBA", none))) := by
  obtain ⟨m, t, ui, ht, alg⟩ := a
  simp only at h
  rcases h with h | h | h <;> subst h <;>
    cases ign <;> cases ui <;> simp [generate_candidates]

/-- Witness for C9 at a concrete binary-alpha, non-UI classification. -/
theorem generate_candidates_first_direct_witness :
    ((⟨"RGBA", "binary", false, true, "NEAREST"⟩ : ImageAnalysis).alpha_type = "none" ∨
      (⟨"RGBA", "binary", false, true, "NEAREST"⟩ : ImageAnalysis).alpha_type = "binary" ∨
      (⟨"RGBA", "binary", false, true, "NEAREST"⟩ : ImageAnalysis).alpha_type = "partial") ∧
    (1 ≤ (generate_candidates (⟨"RGBA", "binary", false, true, "NEAREST"⟩ : ImageAnalysis) false).length ∧
      (generate_candidates (⟨"RGBA", "binary", false, true, "NEAREST"⟩ : ImageAnalysis) false).length ≤ 3 ∧
      ((generate_candidates (⟨"RGBA", "binary", false, true, "NEAREST"⟩ : ImageAnalysis) false).head? =
          some (("RGB", none)) ∨
        (generate_candidates (⟨"RGBA", "binary", false, true, "NEAREST"⟩ : ImageAnalysis) false).head? =
          some (("RGBA", none)))) :=
  ⟨Or.inr (Or.inl rfl),
    generate_candidates_first_direct
      (⟨"RGBA", "binary", false, true, "NEAREST"⟩ : ImageAnalysis) false
      (Or.inr (Or.inl rfl))⟩

/-! ## Variant encoder properties -/

/-- Claim C8: for a compression level in 0-9 and a JPEG-class container,
the kwargs quality is 85 at level 0 and `max(10, 100 - level*10)`
otherwise, and an RGBA output image is flattened to RGB before the encode
because the container cannot carry alpha. -/
theorem save_candidate_jpeg_quality_flatten (fmt : String) (compression : Nat)
    (_hc : compression ≤ 9)
    (hf : pyUpper fmt = "JPG" ∨ pyUpper fmt = "JPEG") :
    (save_candidate_kwargs fmt compression).quality =
      some (if compression = 0 then (85 : Int) else max 10 (100 - (compression : Int) * 10)) ∧
    save_candidate_final_mode fmt "RGBA" = "RGB" := by
  have hne : ¬ pyUpper fmt = "PNG" := by
    rcases hf with h | h <;> rw [h] <;> decide
  constructor
  · unfold save_candidate_kwargs
    rw [if_neg hne, if_pos hf]
  · unfold save_candidate_final_mode
    rw [if_pos ⟨hf, rfl⟩]

/-- Witness for C8 at the lower-case container name "jpeg" and level 7. -/
theorem save_candidate_jpeg_quality_flatten_witness :
    ((7 : Nat) ≤ 9 ∧ (pyUpper ("jpeg") = "JPG" ∨ pyUpper ("jpeg") = "JPEG")) ∧
    ((save_candidate_kwargs ("jpeg") 7).quality =
        some (if (7 : Nat) = 0 then (85 : Int) else max 10 (100 - ((7 : Nat) : Int) * 10)) ∧
      save_candidate_final_mode ("jpeg") "RGBA" = "RGB") :=
  ⟨⟨by decide, Or.inr (by decide)⟩,
    save_candidate_jpeg_quality_flatten ("jpeg") 7 (by decide) (Or.inr (by decide))⟩

/-! ## Classifier properties -/

lemma minAlpha_le_of_mem {l : List Nat} {a : Nat} (h : a ∈ l) : minAlpha l ≤ a := by
  induction l with
  | nil => cases h
  | cons b t ih =>
    rcases List.mem_cons.mp h with rfl | h'
    · exact min_le_left _ _
    · exact le_trans (min_le_right _ _) (ih h')

lemma minAlpha_of_all_255 {l : List Nat} (h : ∀ a ∈ l, a = 255) : minAlpha l = 255 := by
  induction l with
  | nil => rfl
  | cons b t ih =>
    have hb := h b (List.mem_cons_self b t)
    have ht := ih (fun x hx => h x (List.mem_cons_of_mem b hx))
    show min b (minAlpha t) = 255
    rw [hb, ht]
    exact min_self 255

lemma minAlpha_lt_ne_nil {l : List Nat} (hm : minAlpha l < 255) : l ≠ [] := by
  intro hx
  subst hx
  exact absurd hm (by decide)

/-- Every alpha list whose values all lie in {0, 255} has at most two
distinct values. -/
lemma dedup_length_le_two (l : List Nat) (h : ∀ v ∈ l, v = 0 ∨ v = 255) :
    l.dedup.length ≤ 2 := by
  have hsub : l.toFinset ⊆ ({0, 255} : Finset ℕ) := by
    intro v hv
    rcases h v (List.mem_toFinset.mp hv) with rfl | rfl <;> simp
  have hc := Finset.card_le_card hsub
  rw [List.card_toFinset] at hc
  have h2 : ({0, 255} : Finset ℕ).card = 2 := rfl
  omega

/-- On a list containing a value below 255, `classify_alpha` reports
transparency and reduces to the binary/partial test on the distinct
values. -/
lemma classify_alpha_transparent (l : List Nat) (hm : minAlpha l < 255) :
    classify_alpha l =
      ((if l.dedup.length ≤ 2 ∧ (∀ v ∈ l.dedup, v = 0 ∨ v = 255) then "binary"
        else "partial"), true) := by
  have hne : l ≠ [] := minAlpha_lt_ne_nil hm
  have hned : l.dedup ≠ [] := fun hx => hne ((List.dedup_eq_nil l).mp hx)
  have hlen0 : l.dedup.length ≠ 0 := fun hx => hned (List.length_eq_zero.mp hx)
  unfold classify_alpha
  rw [if_pos hm]
  by_cases hcap : l.dedup.length ≤ 257
  · have hg : getcolors_cap l 257 = some l.dedup := by
      unfold getcolors_cap
      rw [if_pos hcap]
    rw [hg]
    show (if l.dedup.length ≠ 0 ∧ l.dedup.length ≤ 2 then
        if (l.dedup.all fun v => v == 0 || v == 255) = true then (("binary", true) : String × Bool)
        else ("partial", true)
      else ("partial", true)) = _
    by_cases h2 : l.dedup.length ≤ 2
    · by_cases h3 : ∀ v ∈ l.dedup, v = 0 ∨ v = 255
      · have hall : (l.dedup.all fun v => v == 0 || v == 255) = true := by
          simp only [List.all_eq_true, Bool.or_eq_true, beq_iff_eq]
          exact h3
        rw [if_pos ⟨hlen0, h2⟩, if_pos hall, if_pos ⟨h2, h3⟩]
      · have hnall : ¬ (l.dedup.all fun v => v == 0 || v == 255) = true := by
          simp only [List.all_eq_true, Bool.or_eq_true, beq_iff_eq]
          exact h3
        rw [if_pos ⟨hlen0, h2⟩, if_neg hnall, if_neg (fun hand => h3 hand.2)]
    · rw [if_neg (fun hand => h2 hand.2),
        if_neg (fun hand : l.dedup.length ≤ 2 ∧ _ => h2 hand.1)]
  · have hg : getcolors_cap l 257 = none := by
      unfold getcolors_cap
      rw [if_neg hcap]
    rw [hg]
    show (("partial", true) : String × Bool) = _
    rw [if_neg (fun hand : l.dedup.length ≤ 2 ∧ _ => hcap (le_trans hand.1 (by omega)))]

lemma classify_alpha_shapes (l : List Nat) :
    classify_alpha l = (("none", false) : String × Bool) ∨
      classify_alpha l = (("binary", true) : String × Bool) ∨
      classify_alpha l = (("partial", true) : String × Bool) := by
  by_cases hm : minAlpha l < 255
  · rw [classify_alpha_transparent l hm]
    by_cases hP : l.dedup.length ≤ 2 ∧ ∀ v ∈ l.dedup, v = 0 ∨ v = 255
    · right; left; rw [if_pos hP]
    · right; right; rw [if_neg hP]
  · left
    unfold classify_alpha
    rw [if_neg hm]

/-- Claim C7: the classifier's invariant that "none" alpha fidelity comes
with no transparency reported, and the fully-opaque case (all alpha values
255, including the all-255 channel that alpha-less modes convert to)
yields exactly alpha fidelity "none" with no transparency. -/
theorem analyze_image_opaque_invariant (img : Img) (fp : List Char) :
    ((analyze_image img fp).alpha_type = "none" →
      (analyze_image img fp).has_transparency = false) ∧
    ((∀ a ∈ img.alphas, a = 255) →
      (analyze_image img fp).alpha_type = "none" ∧
        (analyze_image img fp).has_transparency = false) := by
  have hta : (analyze_image img fp).alpha_type = (classify_alpha img.alphas).1 := rfl
  have hht : (analyze_image img fp).has_transparency = (classify_alpha img.alphas).2 := rfl
  constructor
  · intro h
    rw [hta] at h
    rw [hht]
    rcases classify_alpha_shapes img.alphas with hs | hs | hs <;> rw [hs] at h ⊢ <;>
      exact absurd h (by decide)
  · intro h
    have hm : minAlpha img.alphas = 255 := minAlpha_of_all_255 h
    have hs : classify_alpha img.alphas = (("none", false) : String × Bool) := by
      unfold classify_alpha
      rw [hm, if_neg (lt_irrefl 255)]
    rw [hta, hht, hs]
    exact ⟨rfl, rfl⟩

/-- Witness for C7 at a two-pixel fully-opaque image. -/
theorem analyze_image_opaque_invariant_witness :
    (∀ a ∈ (⟨"RGB", [255, 255], [1]⟩ : Img).alphas, a = 255) ∧
    ((analyze_image (⟨"RGB", [255, 255], [1]⟩ : Img) []).alpha_type = "none" ∧
      (analyze_image (⟨"RGB", [255, 255], [1]⟩ : Img) []).has_transparency = false) ∧
    (analyze_image (⟨"RGB", [255, 255], [1]⟩ : Img) []).has_transparency = false :=
  ⟨by decide,
    (analyze_image_opaque_invariant (⟨"RGB", [255, 255], [1]⟩ : Img) []).2 (by decide),
    (analyze_image_opaque_invariant (⟨"RGB", [255, 255], [1]⟩ : Img) []).1 (by decide)⟩

/-- Claim C4: for an image with some alpha value below 255 the classifier
reports transparency, classifies as binary exactly when the distinct alpha
values number at most two and all lie in {0, 255}, and as partial
otherwise; in particular a strictly-intermediate alpha value forces
partial, and alpha values spanning exactly {0, 255} give binary. -/
theorem analyze_image_alpha_fidelity (img : Img) (fp : List Char)
    (h : ∃ a ∈ img.alphas, a < 255) :
    (analyze_image img fp).has_transparency = true ∧
    ((analyze_image img fp).alpha_type = "binary" ∨
      (analyze_image img fp).alpha_type = "partial") ∧
    ((analyze_image img fp).alpha_type = "binary" ↔
      (img.alphas.dedup.length ≤ 2 ∧ ∀ v ∈ img.alphas.dedup, v = 0 ∨ v = 255)) ∧
    ((∃ a ∈ img.alphas, 0 < a ∧ a < 255) →
      (analyze_image img fp).alpha_type = "partial") ∧
    (((∀ v ∈ img.alphas, v = 0 ∨ v = 255) ∧ 0 ∈ img.alphas ∧ 255 ∈ img.alphas) →
      (analyze_image img fp).alpha_type = "binary") := by
  obtain ⟨a, ha, hlt⟩ := h
  have hm : minAlpha img.alphas < 255 := lt_of_le_of_lt (minAlpha_le_of_mem ha) hlt
  have hta : (analyze_image img fp).alpha_type = (classify_alpha img.alphas).1 := rfl
  have hht : (analyze_image img fp).has_transparency = (classify_alpha img.alphas).2 := rfl
  have hc := classify_alpha_transparent img.alphas hm
  rw [hta, hht, hc]
  refine ⟨rfl, ?_, ?_, ?_, ?_⟩
  · by_cases hP : img.alphas.dedup.length ≤ 2 ∧ ∀ v ∈ img.alphas.dedup, v = 0 ∨ v = 255
    · left; rw [if_pos hP]
    · right; rw [if_neg hP]
  · constructor
    · intro hb
      by_cases hP : img.alphas.dedup.length ≤ 2 ∧ ∀ v ∈ img.alphas.dedup, v = 0 ∨ v = 255
      · exact hP
      · rw [if_neg hP] at hb
        exact absurd hb (by decide)
    · intro hP
      rw [if_pos hP]
  · rintro ⟨b, hb, hb0, hb255⟩
    have hP : ¬ (img.alphas.dedup.length ≤ 2 ∧ ∀ v ∈ img.alphas.dedup, v = 0 ∨ v = 255) := by
      rintro ⟨-, hall⟩
      rcases hall b (List.mem_dedup.mpr hb) with rfl | rfl
      · exact absurd hb0 (lt_irrefl 0)
      · exact absurd hb255 (lt_irrefl 255)
    rw [if_neg hP]
  · rintro ⟨hall, -, -⟩
    have hP : img.alphas.dedup.length ≤ 2 ∧ ∀ v ∈ img.alphas.dedup, v = 0 ∨ v = 255 :=
      ⟨dedup_length_le_two img.alphas hall, fun v hv => hall v (List.mem_dedup.mp hv)⟩
    rw [if_pos hP]

/-- Witness for C4 at a two-pixel cutout image with alpha values 0, 255. -/
theorem analyze_image_alpha_fidelity_witness :
    (∃ a ∈ (⟨"RGBA", [0, 255], [1, 2]⟩ : Img).alphas, a < 255) ∧
    ((analyze_image (⟨"RGBA", [0, 255], [1, 2]⟩ : Img) []).has_transparency = true ∧
      ((analyze_image (⟨"RGBA", [0, 255], [1, 2]⟩ : Img) []).alpha_type = "binary" ∨
        (analyze_image (⟨"RGBA", [0, 255], [1, 2]⟩ : Img) []).alpha_type = "partial") ∧
      ((analyze_image (⟨"RGBA", [0, 255], [1, 2]⟩ : Img) []).alpha_type = "binary" ↔
        ((⟨"RGBA", [0, 255], [1, 2]⟩ : Img).alphas.dedup.length ≤ 2 ∧
          ∀ v ∈ (⟨"RGBA", [0, 255], [1, 2]⟩ : Img).alphas.dedup, v = 0 ∨ v = 255)) ∧
      ((∃ a ∈ (⟨"RGBA", [0, 255], [1, 2]⟩ : Img).alphas, 0 < a ∧ a < 255) →
        (analyze_image (⟨"RGBA", [0, 255], [1, 2]⟩ : Img) []).alpha_type = "partial") ∧
      (((∀ v ∈ (⟨"RGBA", [0, 255], [1, 2]⟩ : Img).alphas, v = 0 ∨ v = 255) ∧
          0 ∈ (⟨"RGBA", [0, 255], [1, 2]⟩ : Img).alphas ∧
          255 ∈ (⟨"RGBA", [0, 255], [1, 2]⟩ : Img).alphas) →
        (analyze_image (⟨"RGBA", [0, 255], [1, 2]⟩ : Img) []).alpha_type = "binary")) :=
  ⟨⟨0, by decide, by decide⟩,
    analyze_image_alpha_fidelity (⟨"RGBA", [0, 255], [1, 2]⟩ : Img) []
      ⟨0, by decide, by decide⟩⟩

/-! ## UI-path detection -/

lemma splitP_ne_nil (p : Char → Bool) (l : List Char) : splitP p l ≠ [] := by
  cases l with
  | nil => simp [splitP]
  | cons c cs =>
    unfold splitP
    by_cases h : p c
    · simp [h]
    · rw [if_neg h]
      cases hs : splitP p cs <;> simp

/-- Replacing backslashes by slashes and splitting on slashes is the same
as splitting on both separators directly. -/
lemma splitP_replace (l : List Char) :
    splitP (fun c => c == '/') (l.map pyReplaceBS) =
      splitP (fun c => c == '/' || c == '\\') l := by
  induction l with
  | nil => rfl
  | cons c cs ih =>
    by_cases hb : c = '\\'
    · subst hb
      show splitP (fun c => c == '/') (pyReplaceBS '\\' :: _) = _
      rw [show pyReplaceBS '\\' = '/' from rfl]
      unfold splitP
      rw [if_pos (by decide), if_pos (by decide), ih]
    · have hr : pyReplaceBS c = c := by
        unfold pyReplaceBS
        rw [if_neg hb]
      by_cases hs : c = '/'
      · subst hs
        show splitP (fun c => c == '/') (pyReplaceBS '/' :: _) = _
        rw [show pyReplaceBS '/' = '/' from rfl]
        unfold splitP
        rw [if_pos (by decide), if_pos (by decide), ih]
      · show splitP (fun c => c == '/') (pyReplaceBS c :: _) = _
        rw [hr]
        unfold splitP
        have h1 : ¬ ((c == '/') = true) := by
          simp only [beq_iff_eq]
          exact hs
        have h2 : ¬ ((c == '/' || c == '\\') = true) := by
          simp only [Bool.or_eq_true, beq_iff_eq]
          rintro (hx | hx)
          · exact hs hx
          · exact hb hx
        rw [if_neg h1, if_neg h2, ih]

/-- Claim C6: `is_ui_texture` returns true exactly when, after
lower-casing the path and splitting it into segments on both separator
conventions, some whole segment is one of the keywords ui, gui, colormap,
font; a segment that merely contains a keyword as a substring does not
match. -/
theorem is_ui_texture_segment_exact (path : List Char) :
    is_ui_texture path = true ↔ ∃ seg ∈ specSegments path, seg ∈ keywords := by
  show (splitP (fun c => c == '/') ((path.map pyLower).map pyReplaceBS)).any
      (fun seg => keywords.contains seg) = true ↔ _
  unfold specSegments
  rw [splitP_replace]
  simp only [List.any_eq_true, List.elem_iff]

/-! ## Racer properties -/

/-- The race loop invariant: folding `race_step` over a candidate list
either leaves the initial state untouched (and then no successful encode
was strictly below the initial size), or ends on the first candidate
reaching the minimum successful size below the initial size. -/
lemma race_fold_spec (enc1 : String → Option Nat → Option (Nat × Nat)) :
    ∀ (l : List (String × Option Nat)) (b0 : Option Nat) (s0 : Nat) (m0 : String),
      (l.foldl (race_step enc1) (b0, s0, m0) = (b0, s0, m0) ∧
        ∀ c ∈ l, ∀ p : Nat × Nat, enc1 c.1 c.2 = some p → s0 ≤ p.2) ∨
      (∃ pre c post bb s, l = pre ++ c :: post ∧ enc1 c.1 c.2 = some ((bb, s)) ∧
        l.foldl (race_step enc1) (b0, s0, m0) = (some bb, s, mkLabel c.1 c.2) ∧
        s < s0 ∧
        (∀ c' ∈ pre, ∀ p : Nat × Nat, enc1 c'.1 c'.2 = some p → s < p.2) ∧
        (∀ c' ∈ post, ∀ p : Nat × Nat, enc1 c'.1 c'.2 = some p → s ≤ p.2)) := by
  intro l
  induction l with
  | nil =>
    intro b0 s0 m0
    left
    exact ⟨rfl, fun c hc => absurd hc (List.not_mem_nil c)⟩
  | cons c0 t ih =>
    intro b0 s0 m0
    rw [List.foldl_cons]
    cases h0 : enc1 c0.1 c0.2 with
    | none =>
      have hstep : race_step enc1 (b0, s0, m0) c0 = (b0, s0, m0) := by
        unfold race_step
        rw [h0]
      rw [hstep]
      rcases ih b0 s0 m0 with ⟨hf, hall⟩ |
        ⟨pre, c, post, bb, s, hl, henc, hf, hs, hpre, hpost⟩
      · left
        refine ⟨hf, ?_⟩
        intro c hc p hp
        rcases List.mem_cons.mp hc with rfl | hc'
        · rw [h0] at hp
          exact Option.noConfusion hp
        · exact hall c hc' p hp
      · right
        refine ⟨c0 :: pre, c, post, bb, s, by rw [hl, List.cons_append], henc, hf, hs,
          ?_, hpost⟩
        intro c' hc' p hp
        rcases List.mem_cons.mp hc' with rfl | hc''
        · rw [h0] at hp
          exact Option.noConfusion hp
        · exact hpre c' hc'' p hp
    | some bs =>
      obtain ⟨bb0, sz0⟩ := bs
      by_cases hlt : sz0 < s0
      · have hstep : race_step enc1 (b0, s0, m0) c0 = (some bb0, sz0, mkLabel c0.1 c0.2) := by
          unfold race_step
          rw [h0]
          show (if sz0 < s0 then ((some bb0, sz0, mkLabel c0.1 c0.2) : Option Nat × Nat × String)
            else (b0, s0, m0)) = _
          rw [if_pos hlt]
        rw [hstep]
        rcases ih (some bb0) sz0 (mkLabel c0.1 c0.2) with ⟨hf, hall⟩ |
          ⟨pre, c, post, bb, s, hl, henc, hf, hs, hpre, hpost⟩
        · right
          exact ⟨[], c0, t, bb0, sz0, rfl, h0, hf, hlt,
            fun c' hc' => absurd hc' (List.not_mem_nil c'), hall⟩
        · right
          refine ⟨c0 :: pre, c, post, bb, s, by rw [hl, List.cons_append], henc, hf,
            lt_trans hs hlt, ?_, hpost⟩
          intro c' hc' p hp
          rcases List.mem_cons.mp hc' with rfl | hc''
          · rw [h0] at hp
            injection hp with hp'
            rw [← hp']
            exact hs
          · exact hpre c' hc'' p hp
      · have hstep : race_step enc1 (b0, s0, m0) c0 = (b0, s0, m0) := by
          unfold race_step
          rw [h0]
          show (if sz0 < s0 then ((some bb0, sz0, mkLabel c0.1 c0.2) : Option Nat × Nat × String)
            else (b0, s0, m0)) = _
          rw [if_neg hlt]
        rw [hstep]
        rcases ih b0 s0 m0 with ⟨hf, hall⟩ |
          ⟨pre, c, post, bb, s, hl, henc, hf, hs, hpre, hpost⟩
        · left
          refine ⟨hf, ?_⟩
          intro c hc p hp
          rcases List.mem_cons.mp hc with rfl | hc'
          · rw [h0] at hp
            injection hp with hp'
            rw [← hp']
            exact le_of_not_lt hlt
          · exact hall c hc' p hp
        · right
          refine ⟨c0 :: pre, c, post, bb, s, by rw [hl, List.cons_append], henc, hf, hs,
            ?_, hpost⟩
          intro c' hc' p hp
          rcases List.mem_cons.mp hc' with rfl | hc''
          · rw [h0] at hp
            injection hp with hp'
            rw [← hp']
            exact lt_of_lt_of_le hs (le_of_not_lt hlt)
          · exact hpre c' hc'' p hp

/-- A concrete encoder used by the racer witnesses: it encodes only the
direct RGB candidate, producing buffer 7 of size 3, and fails on every
other request. -/
def encRGB3 : Img → String → Option Nat → Nat → String → Option (Nat × Nat) :=
  fun _ m c _ _ => if m = "RGB" ∧ c = none then some ((7, 3)) else none

/-- A concrete fully-opaque one-pixel image used by the racer witnesses. -/
def imgOpaque : Img := ⟨"RGB", [255], [1]⟩

/-- Claim C1: whenever some generated candidate encodes successfully to a
size strictly below the baseline, `smart_optimize` returns the global
minimum size among all successfully-encoded candidates together with that
candidate's buffer and label, ties broken in favour of the first candidate
reaching that size (every earlier successful candidate is strictly
larger). -/
theorem smart_optimize_global_min
    (enc : Img → String → Option Nat → Nat → String → Option (Nat × Nat))
    (img : Img) (fp : List Char) (original_size : Nat)
    (compression : Nat) (fmt : String) (ign : Bool)
    (h : ∃ c ∈ generate_candidates (analyze_image img fp) ign, ∃ p : Nat × Nat,
      enc img c.1 c.2 compression fmt = some p ∧ p.2 < original_size) :
    ∃ pre c post bb s,
      generate_candidates (analyze_image img fp) ign = pre ++ c :: post ∧
      enc img c.1 c.2 compression fmt = some ((bb, s)) ∧
      smart_optimize enc img fp original_size compression fmt ign =
        (some bb, mkLabel c.1 c.2, (s : ENat)) ∧
      (∀ c' ∈ generate_candidates (analyze_image img fp) ign, ∀ p : Nat × Nat,
        enc img c'.1 c'.2 compression fmt = some p → s ≤ p.2) ∧
      (∀ c' ∈ pre, ∀ p : Nat × Nat,
        enc img c'.1 c'.2 compression fmt = some p → s < p.2) := by
  rcases race_fold_spec (fun m c => enc img m c compression fmt)
      (generate_candidates (analyze_image img fp) ign) none original_size "Original" with
    ⟨hf, hall⟩ | ⟨pre, c, post, bb, s, hl, henc, hf, hs, hpre, hpost⟩
  · obtain ⟨c, hc, p, hp, hplt⟩ := h
    exact absurd (hall c hc p hp) (not_le.mpr hplt)
  · refine ⟨pre, c, post, bb, s, hl, henc, ?_, ?_, hpre⟩
    · show smart_finish (fun m c => enc img m c compression fmt)
        ((generate_candidates (analyze_image img fp) ign).foldl
          (race_step (fun m c => enc img m c compression fmt))
          (none, original_size, "Original"))
        (safe_mode (analyze_image img fp) ign) = _
      rw [hf]
      rfl
    · intro c' hc' p hp
      rw [hl] at hc'
      rcases List.mem_append.mp hc' with hcpre | hcc
      · exact le_of_lt (hpre c' hcpre p hp)
      · rcases List.mem_cons.mp hcc with rfl | hcpost
        · rw [henc] at hp
          injection hp with hp'
          rw [← hp']
        · exact hpost c' hcpost p hp

/-- Witness for C1: the concrete encoder succeeds only on the RGB
candidate at size 3, strictly below baseline 10. -/
theorem smart_optimize_global_min_witness :
    (∃ c ∈ generate_candidates (analyze_image imgOpaque []) false, ∃ p : Nat × Nat,
      encRGB3 imgOpaque c.1 c.2 9 "PNG" = some p ∧ p.2 < 10) ∧
    (∃ pre c post bb s,
      generate_candidates (analyze_image imgOpaque []) false = pre ++ c :: post ∧
      encRGB3 imgOpaque c.1 c.2 9 "PNG" = some ((bb, s)) ∧
      smart_optimize encRGB3 imgOpaque [] 10 9 "PNG" false =
        (some bb, mkLabel c.1 c.2, (s : ENat)) ∧
      (∀ c' ∈ generate_candidates (analyze_image imgOpaque []) false, ∀ p : Nat × Nat,
        encRGB3 imgOpaque c'.1 c'.2 9 "PNG" = some p → s ≤ p.2) ∧
      (∀ c' ∈ pre, ∀ p : Nat × Nat,
        encRGB3 imgOpaque c'.1 c'.2 9 "PNG" = some p → s < p.2)) :=
  ⟨⟨(("RGB", none) : String × Option Nat), by decide, ((7, 3) : Nat × Nat), rfl, by decide⟩,
    smart_optimize_global_min encRGB3 imgOpaque [] 10 9 "PNG" false
      ⟨(("RGB", none) : String × Option Nat), by decide, ((7, 3) : Nat × Nat), rfl, by decide⟩⟩

/-- Counterexample to C3 as stated: when every encode — including the
fallback encode — fails, `smart_optimize` returns a failure result (no
buffer), not a non-failure result, even though it is labeled as the
fallback. -/
theorem smart_optimize_fallback_can_fail :
    (smart_optimize (fun _ _ _ _ _ => none) (⟨"RGB", [255], [1]⟩ : Img) [] 10 9 "PNG"
        false).1 = none ∧
    (smart_optimize (fun _ _ _ _ _ => none) (⟨"RGB", [255], [1]⟩ : Img) [] 10 9 "PNG"
        false).2.1 = "RGB (Fallback)" := by
  exact ⟨rfl, rfl⟩

/-- Claim C3 (amended): when no candidate encodes successfully to a size
strictly below the baseline and the fallback encode itself succeeds,
`smart_optimize` returns that fallback encode: a non-failure buffer whose
pixel format is RGB when the flag is set or the classified fidelity is
"none" and RGBA otherwise, labeled as a fallback. -/
theorem smart_optimize_fallback
    (enc : Img → String → Option Nat → Nat → String → Option (Nat × Nat))
    (img : Img) (fp : List Char) (original_size : Nat)
    (compression : Nat) (fmt : String) (ign : Bool)
    (hno : ∀ c ∈ generate_candidates (analyze_image img fp) ign, ∀ p : Nat × Nat,
      enc img c.1 c.2 compression fmt = some p → original_size ≤ p.2)
    (b s : Nat)
    (hfb : enc img
        (if ign || (analyze_image img fp).alpha_type = "none" then "RGB" else "RGBA")
        none compression fmt = some ((b, s))) :
    smart_optimize enc img fp original_size compression fmt ign =
      (some b,
        (if ign || (analyze_image img fp).alpha_type = "none" then "RGB" else "RGBA") ++
          " (Fallback)",
        (s : ENat)) := by
  rcases race_fold_spec (fun m c => enc img m c compression fmt)
      (generate_candidates (analyze_image img fp) ign) none original_size "Original" with
    ⟨hf, hall⟩ | ⟨pre, c, post, bb, s', hl, henc, hf, hs', hpre, hpost⟩
  · have hsm : safe_mode (analyze_image img fp) ign =
        (if ign || (analyze_image img fp).alpha_type = "none" then "RGB" else "RGBA") := rfl
    show smart_finish (fun m c => enc img m c compression fmt)
        ((generate_candidates (analyze_image img fp) ign).foldl
          (race_step (fun m c => enc img m c compression fmt))
          (none, original_size, "Original"))
        (safe_mode (analyze_image img fp) ign) = _
    rw [hf]
    show (match enc img (safe_mode (analyze_image img fp) ign) none compression fmt with
      | some bs => ((some bs.1 : Option Nat),
          safe_mode (analyze_image img fp) ign ++ " (Fallback)", (bs.2 : ENat))
      | none => (none, safe_mode (analyze_image img fp) ign ++ " (Fallback)",
          (⊤ : ENat))) = _
    rw [hsm, hfb]
  · have hcm : c ∈ generate_candidates (analyze_image img fp) ign := by
      rw [hl]
      exact List.mem_append.mpr (Or.inr (List.mem_cons_self c post))
    exact absurd (hno c hcm ((bb, s')) henc) (not_le.mpr hs')

/-- Witness for the amended C3: with baseline 2, the only successful
candidate encode (RGB at size 3) does not beat the baseline, and the
fallback encode succeeds. -/
theorem smart_optimize_fallback_witness :
    ((∀ c ∈ generate_candidates (analyze_image imgOpaque []) false, ∀ p : Nat × Nat,
        encRGB3 imgOpaque c.1 c.2 9 "PNG" = some p → 2 ≤ p.2) ∧
      encRGB3 imgOpaque
        (if false || (analyze_image imgOpaque []).alpha_type = "none" then "RGB" else "RGBA")
        none 9 "PNG" = some ((7, 3))) ∧
    smart_optimize encRGB3 imgOpaque [] 2 9 "PNG" false =
      (some 7,
        (if false || (analyze_image imgOpaque []).alpha_type = "none" then "RGB" else "RGBA") ++
          " (Fallback)",
        ((3 : Nat) : ENat)) := by
  have hno : ∀ c ∈ generate_candidates (analyze_image imgOpaque []) false, ∀ p : Nat × Nat,
      encRGB3 imgOpaque c.1 c.2 9 "PNG" = some p → 2 ≤ p.2 := by
    intro c hc p hp
    have hcands : generate_candidates (analyze_image imgOpaque []) false =
        [(("RGB", none) : String × Option Nat), ("P", some 256), ("P", some 128)] := by
      decide
    rw [hcands] at hc
    have hc3 : c = (("RGB", none) : String × Option Nat) ∨
        c = (("P", some 256) : String × Option Nat) ∨
        c = (("P", some 128) : String × Option Nat) := by
      simpa using hc
    rcases hc3 with rfl | rfl | rfl
    · rw [show encRGB3 imgOpaque "RGB" none 9 "PNG" = some ((7, 3)) from rfl] at hp
      injection hp with hp'
      rw [← hp']
      decide
    · rw [show encRGB3 imgOpaque "P" (some 256) 9 "PNG" = none from rfl] at hp
      exact Option.noConfusion hp
    · rw [show encRGB3 imgOpaque "P" (some 128) 9 "PNG" = none from rfl] at hp
      exact Option.noConfusion hp
  exact ⟨⟨hno, rfl⟩,
    smart_optimize_fallback encRGB3 imgOpaque [] 2 9 "PNG" false hno 7 3 rfl⟩

/-- Claim C10: with the ignore-transparency flag set, every generated
candidate is RGB or palette-indexed, and the label `smart_optimize`
returns is one of "RGB", "P-256", "P-128", "RGB (Fallback)" — it never
names the alpha-carrying RGBA format. -/
theorem smart_optimize_ignore_no_rgba
    (enc : Img → String → Option Nat → Nat → String → Option (Nat × Nat))
    (img : Img) (fp : List Char) (original_size : Nat)
    (compression : Nat) (fmt : String) :
    (∀ c ∈ generate_candidates (analyze_image img fp) true, c.1 = "RGB" ∨ c.1 = "P") ∧
    (smart_optimize enc img fp original_size compression fmt true).2.1 ∈
      (["RGB", "P-256", "P-128", "RGB (Fallback)"] : List String) := by
  have hcand : generate_candidates (analyze_image img fp) true =
      ("RGB", none) ::
        (if (analyze_image img fp).is_ui then []
          else [(("P", some 256) : String × Option Nat), ("P", some 128)]) := rfl
  constructor
  · intro c hc
    rw [hcand] at hc
    rcases List.mem_cons.mp hc with rfl | hc'
    · left; rfl
    · cases hui : (analyze_image img fp).is_ui
      · rw [hui] at hc'
        have hc2 : c = (("P", some 256) : String × Option Nat) ∨
            c = (("P", some 128) : String × Option Nat) := by
          simpa using hc'
        rcases hc2 with rfl | rfl
        · right; rfl
        · right; rfl
      · rw [hui] at hc'
        simp at hc'
  · rcases race_fold_spec (fun m c => enc img m c compression fmt)
        (generate_candidates (analyze_image img fp) true) none original_size "Original" with
      ⟨hf, hall⟩ | ⟨pre, c, post, bb, s, hl, henc, hf, hs, hpre, hpost⟩
    · show (smart_finish (fun m c => enc img m c compression fmt)
          ((generate_candidates (analyze_image img fp) true).foldl
            (race_step (fun m c => enc img m c compression fmt))
            (none, original_size, "Original"))
          (safe_mode (analyze_image img fp) true)).2.1 ∈ _
      rw [hf]
      show (match enc img (safe_mode (analyze_image img fp) true) none compression fmt with
        | some bs => ((some bs.1 : Option Nat),
            safe_mode (analyze_image img fp) true ++ " (Fallback)", (bs.2 : ENat))
        | none => (none, safe_mode (analyze_image img fp) true ++ " (Fallback)",
            (⊤ : ENat))).2.1 ∈ _
      have hsm : safe_mode (analyze_image img fp) true = "RGB" := rfl
      rw [hsm]
      cases hx : enc img "RGB" none compression fmt with
      | none =>
        show ("RGB" ++ " (Fallback)" : String) ∈ _
        decide
      | some bs =>
        show ("RGB" ++ " (Fallback)" : String) ∈ _
        decide
    · have hcm : c ∈ generate_candidates (analyze_image img fp) true := by
        rw [hl]
        exact List.mem_append.mpr (Or.inr (List.mem_cons_self c post))
      rw [hcand] at hcm
      show (smart_finish (fun m c => enc img m c compression fmt)
          ((generate_candidates (analyze_image img fp) true).foldl
            (race_step (fun m c => enc img m c compression fmt))
            (none, original_size, "Original"))
          (safe_mode (analyze_image img fp) true)).2.1 ∈ _
      rw [hf]
      show mkLabel c.1 c.2 ∈ _
      rcases List.mem_cons.mp hcm with rfl | hc'
      · decide
      · cases hui : (analyze_image img fp).is_ui
        · rw [hui] at hc'
          have hc2 : c = (("P", some 256) : String × Option Nat) ∨
              c = (("P", some 128) : String × Option Nat) := by
            simpa using hc'
          rcases hc2 with rfl | rfl
          · decide
          · decide
        · rw [hui] at hc'
          simp at hc'
